import Mathlib

/-!
# Verification of gitlab-ci-shellcheck

A shallow embedding of `gitlab_ci_shellcheck.py` and proofs of the
behavioural properties of its core pipeline: YAML loading validation
(`load_yaml`), job selection (`yaml_to_jobs`), script normalization
(`script_block_to_str`, `job_config_to_shell`) and the orchestration of
shellcheck invocations in `_main`.

The external shellcheck process is modelled as an uninterpreted function
`analyze : String → Int` returning an exit code; everything else is a
direct translation of the Python source.
-/

namespace GitlabCiShellcheck

/-- Values of the parsed YAML document, as the Python code sees them:
`str` is a Python `str`, `ref` a `ReferenceTag` (carrying its
sequence-of-strings path), `seq` a Python `list`, `map` a Python `dict`
with string keys (insertion-ordered association list), and `null`,
`int`, `bool` the remaining scalar shapes a YAML loader can produce. -/
inductive Yaml where
  | str : String → Yaml
  | ref : List String → Yaml
  | seq : List Yaml → Yaml
  | map : List (String × Yaml) → Yaml
  | null : Yaml
  | int : Int → Yaml
  | bool : Bool → Yaml

/-- Python truthiness of a `Yaml` value: `None`, empty strings, empty
lists, empty dicts, `0` and `False` are falsy; a `ReferenceTag` object
is always truthy. Used by the or-empty-string defaulting in
`job_config_to_shell`. -/
def truthy : Yaml → Bool
  | .str s => !s.isEmpty
  | .ref _ => true
  | .seq l => !l.isEmpty
  | .map kvs => !kvs.isEmpty
  | .null => false
  | .int n => n != 0
  | .bool b => b

/-- Models the check `isinstance(value, dict)`. -/
def is_map : Yaml → Bool
  | .map _ => true
  | _ => false

/-- Models `dict.get(key)` on an insertion-ordered mapping (keys are unique in
a Python dict, so first match suffices). -/
def getKey (kvs : List (String × Yaml)) (k : String) : Option Yaml :=
  match kvs.find? (fun kv => kv.1 = k) with
  | some kv => some kv.2
  | none => none

/-- Python or-defaulting to the empty string applied to the result of
`dict.get`: a missing key (None) or any falsy value is replaced by the
empty string. -/
def pyOr (v : Option Yaml) : Yaml :=
  match v with
  | some y => if truthy y then y else Yaml.str ""
  | none => Yaml.str ""

/-- Models `job_config.get(k) or ...` with the empty-string default:
the effective value handed to `script_block_to_str` for field `k` of a
job config. -/
def getOrEmpty (j : List (String × Yaml)) (k : String) : Yaml :=
  pyOr (getKey j k)

/-- The ValueErrors the script pipeline can raise, carrying the
offending fragment as the Python f-string messages (unexpected
subpart, unexpected script value) do. -/
inductive ScriptErr where
  | unexpectedSubpart : Yaml → ScriptErr
  | unexpectedScriptValue : Yaml → ScriptErr

/-- The inner loop of `script_block_to_str` over a nested sub-list:
`for subpart in part: if isinstance(subpart, str): parts.append(subpart)
else: raise ValueError(...)`. -/
def subparts_to_strs : List Yaml → Except ScriptErr (List String)
  | [] => .ok []
  | .str s :: rest =>
    match subparts_to_strs rest with
    | .error e => .error e
    | .ok r => .ok (s :: r)
  | y :: _ => .error (.unexpectedSubpart y)

/-- The outer loop of `script_block_to_str` over the elements of a list:
a `str` part contributes itself, a `list` part contributes its string
elements (raising on any non-string element), a `ReferenceTag` part is
skipped with `continue`, and any other part falls through the
`if`/`elif` chain without an `else` — silently skipped. -/
def parts_to_strs : List Yaml → Except ScriptErr (List String)
  | [] => .ok []
  | .str s :: rest =>
    match parts_to_strs rest with
    | .error e => .error e
    | .ok r => .ok (s :: r)
  | .seq sub :: rest =>
    match subparts_to_strs sub with
    | .error e => .error e
    | .ok s =>
      match parts_to_strs rest with
      | .error e => .error e
      | .ok r => .ok (s ++ r)
  | .ref _ :: rest => parts_to_strs rest
  | _ :: rest => parts_to_strs rest

/-- Translates `script_block_to_str(obj)`: a string is returned
verbatim, a list is flattened by `parts_to_strs` and newline-joined, a
ReferenceTag yields the empty string, and anything else raises the
ValueError naming the unexpected script value. -/
def script_block_to_str : Yaml → Except ScriptErr String
  | .str s => .ok s
  | .seq parts =>
    match parts_to_strs parts with
    | .error e => .error e
    | .ok ps => .ok (String.intercalate "\n" ps)
  | .ref _ => .ok ""
  | y => .error (.unexpectedScriptValue y)

/-- Translates `job_config_to_shell(job_config)`: normalizes `before_script`,
`script` and `after_script` (each defaulted to the empty string when missing or falsy), prepends the
before-script to the script with a single newline when the before-script
text is truthy (non-empty), and returns the pair
`(effective_script, after_script)`. -/
def job_config_to_shell (job_config : List (String × Yaml)) :
    Except ScriptErr (String × String) :=
  match script_block_to_str (getOrEmpty job_config "before_script") with
  | .error e => .error e
  | .ok before_script =>
    match script_block_to_str (getOrEmpty job_config "script") with
    | .error e => .error e
    | .ok script =>
      let effective_script :=
        if !before_script.isEmpty then before_script ++ "\n" ++ script else script
      match script_block_to_str (getOrEmpty job_config "after_script") with
      | .error e => .error e
      | .ok after_script => .ok (effective_script, after_script)

/-- The reserved global keywords of `yaml_to_jobs`. -/
def global_keywords : List String :=
  ["defaults", "variables", "workflow", "image", "stages",
   "before_script", "after_script", "services", "cache"]

/-- Translates `yaml_to_jobs(ci_configuration)`: iterate the document's items in
order and append `value` (only the value — the key is dropped) whenever
`key not in global_keywords and isinstance(value, dict)`. -/
def yaml_to_jobs : List (String × Yaml) → List Yaml
  | [] => []
  | (key, value) :: rest =>
    if !(global_keywords.contains key) && is_map value then
      value :: yaml_to_jobs rest
    else
      yaml_to_jobs rest

/-- The error raised by `load_yaml` when the parsed document is not a
dict, carrying the offending root. -/
inductive MainErr where
  | formatError : Yaml → MainErr
  | scriptError : ScriptErr → MainErr

/-- Translates `load_yaml(filepath)` after parsing: raise a ValueError
when the parsed value is not a dict, else return the mapping
unchanged. The file
read and YAML parse themselves are external; the parsed value is the
input here. -/
def load_yaml : Yaml → Except MainErr (List (String × Yaml))
  | .map kvs => .ok kvs
  | y => .error (.formatError y)

/-- The whitespace characters removed by Python's `str.strip()` (its
ASCII set: space, tab, newline, carriage return, vertical tab, form
feed). -/
def isPyWhitespace (c : Char) : Bool :=
  c == ' ' || c == '\t' || c == '\n' || c == '\r' || c == '\x0b' || c == '\x0c'

/-- The truth value of `after_script.strip()` in `_main`: the stripped
string is non-empty exactly when some character is not whitespace. -/
def strip_nonempty (s : String) : Bool :=
  s.data.any (fun c => !(isPyWhitespace c))

/-- The fields the orchestrator keeps of a `JobResult` (the
`subprocess.CompletedProcess` objects are reduced to the exit codes that
`_main` inspects; `after_rc = none` models `after_script_result = None`
and `result = true` models the pass verdict). -/
structure JobResult where
  script_rc : Int
  after_rc : Option Int
  result : Bool

/-- The fields of a job value produced by `yaml_to_jobs` (always a dict
there, since `isinstance(value, dict)` guarded its selection). -/
def yamlFields : Yaml → List (String × Yaml)
  | .map kvs => kvs
  | _ => []

/-- The per-job body of the loop in `_main`: normalize the job, run
shellcheck on the effective script unconditionally, run it on the
after-script only `if after_script.strip()`, and compute the pass/fail
verdict exactly as the two `if ... returncode != 0` statements do. The
external `shellcheck` process is the uninterpreted exit-code function
`analyze`. -/
def process_job (analyze : String → Int) (job : List (String × Yaml)) :
    Except ScriptErr JobResult :=
  match job_config_to_shell job with
  | .error e => .error e
  | .ok p =>
    let script_result := analyze p.1
    let after_script_result : Option Int :=
      if strip_nonempty p.2 then some (analyze p.2) else none
    let overall_result :=
      let r := true
      let r := if script_result != 0 then false else r
      match after_script_result with
      | some rc => if rc != 0 then false else r
      | none => r
    .ok ⟨script_result, after_script_result, overall_result⟩

/-- The loop of `_main` over the selected jobs, collecting
`job_results`; a `ValueError` from normalization propagates out of the
loop as the Python exception does. -/
def run_jobs (analyze : String → Int) : List Yaml → Except ScriptErr (List JobResult)
  | [] => .ok []
  | job :: rest =>
    match process_job analyze (yamlFields job) with
    | .error e => .error e
    | .ok r =>
      match run_jobs analyze rest with
      | .error e => .error e
      | .ok rs => .ok (r :: rs)

/-- Translates `_main(filepath)`: load the document, select the jobs, return `1`
immediately when fewer than one job was collected, otherwise run every
job and return `1` iff some job's result is not pass, else `0`. -/
def run_main (analyze : String → Int) (doc : Yaml) : Except MainErr Int :=
  match load_yaml doc with
  | .error e => .error e
  | .ok config =>
    let jobs := yaml_to_jobs config
    if jobs.length < 1 then
      .ok 1
    else
      match run_jobs analyze jobs with
      | .error e => .error (.scriptError e)
      | .ok job_results =>
        .ok (if job_results.any (fun r => !r.result) then 1 else 0)

/-- A one-level sub-block of strings, as `Part.toYaml` encodes it. -/
inductive Part where
  | text : String → Part
  | subblock : List String → Part
  | reference : List String → Part

/-- The YAML encoding of a recognized direct child of a script block:
a plain string, a sub-list of strings, or a `!reference` tag. -/
def Part.toYaml : Part → Yaml
  | .text s => .str s
  | .subblock l => .seq (l.map Yaml.str)
  | .reference p => .ref p

/-- The lines a recognized child contributes to the normalized script:
a string contributes itself, a sub-list contributes each element, a
reference contributes nothing. -/
def Part.lines : Part → List String
  | .text s => [s]
  | .subblock l => l
  | .reference _ => []

theorem subparts_to_strs_map_str (l : List String) :
    subparts_to_strs (l.map Yaml.str) = .ok l := by
  induction l with
  | nil => rfl
  | cons s rest ih => simp [subparts_to_strs, ih, Except.bind]

theorem parts_to_strs_parts (ps : List Part) :
    parts_to_strs (ps.map Part.toYaml) = .ok (ps.flatMap Part.lines) := by
  induction ps with
  | nil => rfl
  | cons p rest ih =>
    cases p with
    | text s => simp [Part.toYaml, Part.lines, parts_to_strs, ih, Except.bind]
    | subblock l =>
      simp [Part.toYaml, Part.lines, parts_to_strs, ih,
        subparts_to_strs_map_str, Except.bind]
    | reference p => simp [Part.toYaml, Part.lines, parts_to_strs, ih]

/-- C1: for every job whose three script fields normalize without
error, `job_config_to_shell` returns the before-script text, a single
newline, then the script text when the before-script text is non-empty,
the script text alone when it is empty (no leading separator), and the
after-script text alone in the second slot — nothing is trimmed or
further concatenated. -/
theorem combined_script_eq (j : List (String × Yaml)) (bt st at_ : String)
    (hb : script_block_to_str (getOrEmpty j "before_script") = .ok bt)
    (hs : script_block_to_str (getOrEmpty j "script") = .ok st)
    (ha : script_block_to_str (getOrEmpty j "after_script") = .ok at_) :
    job_config_to_shell j =
      .ok ((if bt = "" then st else bt ++ "\n" ++ st), at_) := by
  simp only [job_config_to_shell, hb, hs, ha, Except.bind]
  rcases eq_or_ne bt "" with h | h
  · simp [h, String.isEmpty_iff]
  · simp [h, String.isEmpty_iff]

theorem combined_script_eq_witness :
    job_config_to_shell
      [("before_script", Yaml.str "abc\n123"),
       ("script", Yaml.seq [Yaml.str "foo", Yaml.str "bar"])] =
      .ok ("abc\n123\nfoo\nbar", "") := by
  have h := combined_script_eq
    [("before_script", Yaml.str "abc\n123"),
     ("script", Yaml.seq [Yaml.str "foo", Yaml.str "bar"])]
    "abc\n123" "foo\nbar" "" rfl rfl rfl
  simpa using h

/-- C2: a script encoded as a sequence of recognized children (strings,
sub-lists of strings, references) normalizes to the children's lines in
encounter order — each string its own line, each sub-list element its
own line, references skipped — joined by single newlines; in
particular the document of Scenario B — a script holding the string
foo then the sub-list of bar and baz, with after-script echo after —
normalizes to the pair of foo-bar-baz joined by newlines and echo
after. -/
theorem block_normalization (ps : List Part) :
    script_block_to_str (Yaml.seq (ps.map Part.toYaml)) =
      .ok (String.intercalate "\n" (ps.flatMap Part.lines)) ∧
    job_config_to_shell
      [("script", Yaml.seq [Yaml.str "foo", Yaml.seq [Yaml.str "bar", Yaml.str "baz"]]),
       ("after_script", Yaml.str "echo after")] =
      .ok ("foo\nbar\nbaz", "echo after") := by
  refine ⟨?_, rfl⟩
  simp [script_block_to_str, parts_to_strs_parts ps, Except.bind]

/-- C4: a script field whose entire value is a `!reference` tag
normalizes to the empty string whatever path the tag carries, and a
missing field likewise normalizes to the empty string. -/
theorem reference_normalizes_empty :
    (∀ (j : List (String × Yaml)) (k : String) (path : List String),
      getKey j k = some (Yaml.ref path) →
      script_block_to_str (getOrEmpty j k) = .ok "") ∧
    (∀ (j : List (String × Yaml)) (k : String),
      getKey j k = none →
      script_block_to_str (getOrEmpty j k) = .ok "") := by
  constructor
  · intro j k path h
    simp [getOrEmpty, pyOr, h, truthy, script_block_to_str]
  · intro j k h
    simp [getOrEmpty, pyOr, h, script_block_to_str]

theorem reference_normalizes_empty_witness :
    script_block_to_str
      (getOrEmpty [("script", Yaml.ref ["job", "script"])] "script") = .ok "" ∧
    script_block_to_str (getOrEmpty [] "script") = .ok "" :=
  ⟨reference_normalizes_empty.1 [("script", Yaml.ref ["job", "script"])]
      "script" ["job", "script"] rfl,
   reference_normalizes_empty.2 [] "script" rfl⟩

/-- C8: `load_yaml` raises its format `ValueError` exactly on parsed
documents that are not mapping-shaped, and returns the parsed mapping
unchanged otherwise. -/
theorem load_yaml_spec :
    (∀ y : Yaml, is_map y = false →
      load_yaml y = .error (MainErr.formatError y)) ∧
    (∀ kvs : List (String × Yaml), load_yaml (Yaml.map kvs) = .ok kvs) := by
  constructor
  · intro y h
    cases y <;> first | rfl | simp [is_map] at h
  · intro kvs
    rfl

theorem load_yaml_spec_witness :
    load_yaml (Yaml.seq [Yaml.str "a"]) =
      .error (MainErr.formatError (Yaml.seq [Yaml.str "a"])) ∧
    load_yaml (Yaml.map [("a", Yaml.null)]) = .ok [("a", Yaml.null)] :=
  ⟨load_yaml_spec.1 (Yaml.seq [Yaml.str "a"]) rfl,
   load_yaml_spec.2 [("a", Yaml.null)]⟩

/-- C9: normalization is a pure, deterministic function of the three
script fields of its input: two job configs agreeing on
`before_script`, `script` and `after_script` normalize to the identical
pair, with no dependence on anything else. -/
theorem normalize_deterministic (j1 j2 : List (String × Yaml))
    (hb : getKey j1 "before_script" = getKey j2 "before_script")
    (hs : getKey j1 "script" = getKey j2 "script")
    (ha : getKey j1 "after_script" = getKey j2 "after_script") :
    job_config_to_shell j1 = job_config_to_shell j2 := by
  simp [job_config_to_shell, getOrEmpty, hb, hs, ha]

theorem normalize_deterministic_witness :
    job_config_to_shell [("script", Yaml.str "x"), ("stage", Yaml.str "build")] =
      job_config_to_shell [("script", Yaml.str "x")] :=
  normalize_deterministic
    [("script", Yaml.str "x"), ("stage", Yaml.str "build")]
    [("script", Yaml.str "x")] rfl rfl rfl

/-- Removal of field `k` from a job config, for comparing a present
but falsy field with an absent one. -/
def eraseKey (j : List (String × Yaml)) (k : String) : List (String × Yaml) :=
  j.filter (fun kv => kv.1 ≠ k)

theorem getKey_eraseKey (j : List (String × Yaml)) (k : String) :
    getKey (eraseKey j k) k = none := by
  induction j with
  | nil => rfl
  | cons kv rest ih =>
    by_cases h : kv.1 = k
    · simpa [eraseKey, h] using ih
    · simpa [eraseKey, getKey, List.find?, h] using ih

/-- C10: a script field that is present but falsy (an explicit null, an
empty sequence, an empty string, ...) is treated exactly like an absent
field: its effective value is the empty string, it normalizes without
error to the empty string, and removing the field entirely changes
nothing. -/
theorem falsy_field_like_absent (j : List (String × Yaml)) (k : String) (v : Yaml)
    (hp : getKey j k = some v) (hf : truthy v = false) :
    script_block_to_str (getOrEmpty j k) = .ok "" ∧
    getOrEmpty j k = getOrEmpty (eraseKey j k) k := by
  have h1 : getOrEmpty j k = Yaml.str "" := by
    simp [getOrEmpty, pyOr, hp, hf]
  have h2 : getOrEmpty (eraseKey j k) k = Yaml.str "" := by
    simp [getOrEmpty, pyOr, getKey_eraseKey]
  rw [h1, h2]
  exact ⟨rfl, rfl⟩

theorem falsy_field_like_absent_witness :
    script_block_to_str (getOrEmpty [("script", Yaml.null)] "script") = .ok "" ∧
    getOrEmpty [("script", Yaml.null)] "script" =
      getOrEmpty (eraseKey [("script", Yaml.null)] "script") "script" :=
  falsy_field_like_absent [("script", Yaml.null)] "script" Yaml.null rfl rfl

/-- Models the check `isinstance(x, str)`. -/
def is_str : Yaml → Bool
  | .str _ => true
  | _ => false

/-- A value of one of the shapes the normalizer's `if`/`elif` chain
recognizes (for a whole fragment or a direct child of a block): a
string, a list, or a `ReferenceTag`. -/
def shape_recognized : Yaml → Bool
  | .str _ => true
  | .seq _ => true
  | .ref _ => true
  | _ => false

/-- A direct child of a script block that cannot raise: anything except
a sub-list containing a non-string element. -/
def part_wellformed : Yaml → Bool
  | .seq sub => sub.all is_str
  | _ => true

/-- Whether a normalization step succeeded (did not raise). -/
def isOkB {α : Type} : Except ScriptErr α → Bool
  | .ok _ => true
  | .error _ => false

theorem subparts_isOk (sub : List Yaml) :
    isOkB (subparts_to_strs sub) = sub.all is_str := by
  induction sub with
  | nil => rfl
  | cons y rest ih =>
    cases y with
    | str s =>
      rw [List.all_cons, ← ih]
      cases hr : subparts_to_strs rest <;>
        simp [subparts_to_strs, hr, isOkB, is_str]
    | ref p => simp [subparts_to_strs, isOkB, is_str]
    | seq l => simp [subparts_to_strs, isOkB, is_str]
    | map kvs => simp [subparts_to_strs, isOkB, is_str]
    | null => simp [subparts_to_strs, isOkB, is_str]
    | int n => simp [subparts_to_strs, isOkB, is_str]
    | bool b => simp [subparts_to_strs, isOkB, is_str]

theorem parts_isOk (parts : List Yaml) :
    isOkB (parts_to_strs parts) = parts.all part_wellformed := by
  induction parts with
  | nil => rfl
  | cons y rest ih =>
    cases y with
    | str s =>
      rw [List.all_cons, ← ih]
      cases hr : parts_to_strs rest <;>
        simp [parts_to_strs, hr, isOkB, part_wellformed]
    | seq sub =>
      have hsub := subparts_isOk sub
      rw [List.all_cons]
      cases hs : subparts_to_strs sub with
      | error e =>
        rw [hs] at hsub
        have hall : sub.all is_str = false := by simpa [isOkB] using hsub.symm
        simp [parts_to_strs, hs, isOkB, part_wellformed, hall]
      | ok s =>
        rw [hs] at hsub
        have hall : sub.all is_str = true := by simpa [isOkB] using hsub.symm
        rw [← ih]
        cases hr : parts_to_strs rest <;>
          simp [parts_to_strs, hs, hr, isOkB, part_wellformed, hall]
    | ref p =>
      rw [List.all_cons]
      simpa [parts_to_strs, part_wellformed] using ih
    | map kvs =>
      rw [List.all_cons]
      simpa [parts_to_strs, part_wellformed] using ih
    | null =>
      rw [List.all_cons]
      simpa [parts_to_strs, part_wellformed] using ih
    | int n =>
      rw [List.all_cons]
      simpa [parts_to_strs, part_wellformed] using ih
    | bool b =>
      rw [List.all_cons]
      simpa [parts_to_strs, part_wellformed] using ih

theorem part_wellformed_false_iff (part : Yaml) :
    part_wellformed part = false ↔
      ∃ sub, part = Yaml.seq sub ∧ ∃ y ∈ sub, is_str y = false := by
  cases part <;> simp [part_wellformed, List.all_eq_true, Bool.not_eq_true]

theorem parts_to_strs_skip (pre post : List Yaml) (bad : Yaml)
    (h : shape_recognized bad = false) :
    parts_to_strs (pre ++ bad :: post) = parts_to_strs (pre ++ post) := by
  induction pre with
  | nil =>
    cases bad <;> first | rfl | simp [shape_recognized] at h
  | cons p rest ih =>
    cases p <;> simp [parts_to_strs, ih]

/-- C3 counterexample: the script block `[42]` has a direct child of
the sequence that is none of the recognized shapes, yet normalization
succeeds (the child is silently skipped) instead of raising. -/
theorem malformed_direct_child_not_error :
    script_block_to_str (Yaml.seq [Yaml.int 42]) = .ok "" := rfl

/-- C3 (amended): normalization is a hard error naming the offending
fragment for a whole script fragment that is not a string, a sequence
or a Reference; a sequence errors exactly when some sub-sequence child
contains a non-string element; but a direct child of a sequence that is
none of the recognized shapes is silently skipped, not an error. -/
theorem malformed_script_errors :
    (∀ y : Yaml, shape_recognized y = false →
      script_block_to_str y = .error (.unexpectedScriptValue y)) ∧
    (∀ parts : List Yaml,
      (∃ e, script_block_to_str (Yaml.seq parts) = .error e) ↔
        ∃ sub, Yaml.seq sub ∈ parts ∧ ∃ y ∈ sub, is_str y = false) ∧
    (∀ (pre post : List Yaml) (bad : Yaml), shape_recognized bad = false →
      script_block_to_str (Yaml.seq (pre ++ bad :: post)) =
        script_block_to_str (Yaml.seq (pre ++ post))) := by
  refine ⟨?_, ?_, ?_⟩
  · intro y h
    cases y <;> first | rfl | simp [shape_recognized] at h
  · intro parts
    have hok := parts_isOk parts
    constructor
    · rintro ⟨e, he⟩
      cases hp : parts_to_strs parts with
      | ok ps => simp [script_block_to_str, hp] at he
      | error e2 =>
        rw [hp] at hok
        have hall : parts.all part_wellformed = false := by
          simpa [isOkB] using hok.symm
        rw [List.all_eq_false] at hall
        obtain ⟨part, hmem, hpw⟩ := hall
        rw [Bool.not_eq_true] at hpw
        obtain ⟨sub, rfl, y, hy, hys⟩ := (part_wellformed_false_iff part).mp hpw
        exact ⟨sub, hmem, y, hy, hys⟩
    · rintro ⟨sub, hmem, y, hy, hys⟩
      have hpwf : part_wellformed (Yaml.seq sub) = false :=
        (part_wellformed_false_iff (Yaml.seq sub)).mpr ⟨sub, rfl, y, hy, hys⟩
      have hall : parts.all part_wellformed = false := by
        rw [List.all_eq_false]
        exact ⟨Yaml.seq sub, hmem, by simp [hpwf]⟩
      rw [hall] at hok
      cases hp : parts_to_strs parts with
      | ok ps => rw [hp] at hok; simp [isOkB] at hok
      | error e2 => exact ⟨e2, by simp [script_block_to_str, hp]⟩
  · intro pre post bad h
    simp [script_block_to_str, parts_to_strs_skip pre post bad h]

theorem malformed_script_errors_witness :
    script_block_to_str Yaml.null = .error (.unexpectedScriptValue Yaml.null) ∧
    script_block_to_str (Yaml.seq [Yaml.bool true]) =
      script_block_to_str (Yaml.seq []) :=
  ⟨malformed_script_errors.1 Yaml.null rfl,
   malformed_script_errors.2.2 [] [] (Yaml.bool true) rfl⟩

/-- Follows the spec's words (§4.3), for comparison with the source's
`yaml_to_jobs`: `selectJobs(doc)` keeps each entry — as a
`(name, JobConfig)` pair — iff its key is not in the reserved
global-keyword set and its value is mapping-shaped, in the document's
original order. -/
def selectJobs_spec (kvs : List (String × Yaml)) : List (String × Yaml) :=
  kvs.filter (fun kv => !(global_keywords.contains kv.1) && is_map kv.2)

/-- C5 counterexample: the source's selector returns only the values —
two documents whose single job differs only in its name produce the
identical output, while the claimed `(name, JobConfig)` pairs would
differ. -/
theorem job_selector_drops_names :
    yaml_to_jobs [("a", Yaml.map [])] = yaml_to_jobs [("b", Yaml.map [])] ∧
    selectJobs_spec [("a", Yaml.map [])] ≠ selectJobs_spec [("b", Yaml.map [])] := by
  refine ⟨rfl, fun h => ?_⟩
  have h2 := congrArg (fun l => l.map Prod.fst) h
  exact absurd h2 (by decide)

/-- C5 (amended): the job selector returns the mapping-shaped values
(the names are dropped) of exactly the top-level entries whose key is
not reserved and whose value is mapping-shaped, in the document's
original key order; every reserved key is excluded even when its value
is mapping-shaped. -/
theorem job_selector_values (kvs : List (String × Yaml)) :
    yaml_to_jobs kvs = (selectJobs_spec kvs).map Prod.snd ∧
    (∀ (k : String) (v : Yaml), k ∈ global_keywords →
      yaml_to_jobs ((k, v) :: kvs) = yaml_to_jobs kvs) := by
  constructor
  · induction kvs with
    | nil => rfl
    | cons kv rest ih =>
      obtain ⟨k, v⟩ := kv
      rw [yaml_to_jobs, selectJobs_spec, List.filter_cons]
      by_cases h : (!(global_keywords.contains k) && is_map v) = true
      · rw [if_pos h, if_pos (by exact h), List.map_cons, ih, selectJobs_spec]
      · rw [if_neg h, if_neg (by exact h), ih, selectJobs_spec]
  · intro k v hk
    have hc : global_keywords.contains k = true :=
      List.elem_eq_true_of_mem hk
    rw [yaml_to_jobs, hc]
    simp

theorem job_selector_values_witness :
    yaml_to_jobs [("stages", Yaml.map [])] = yaml_to_jobs [] :=
  (job_selector_values []).2 "stages" (Yaml.map []) (by decide)

/-- C6: for every job that normalizes successfully, the orchestrator
records the analyzer's exit code on the combined script
unconditionally (even when it is empty), invokes the analyzer on the
after-script iff its text is non-empty after stripping (recording
`None` otherwise), and the verdict is pass iff every invoked analysis
exited zero. -/
theorem orchestrator_per_job (analyze : String → Int)
    (job : List (String × Yaml)) (s a : String)
    (h : job_config_to_shell job = .ok (s, a)) :
    ∃ r : JobResult, process_job analyze job = .ok r ∧
      r.script_rc = analyze s ∧
      r.after_rc = (if strip_nonempty a then some (analyze a) else none) ∧
      (r.result = true ↔
        (analyze s = 0 ∧ (strip_nonempty a = false ∨ analyze a = 0))) := by
  simp only [process_job, h]
  refine ⟨_, rfl, rfl, rfl, ?_⟩
  by_cases hsn : strip_nonempty a <;>
    by_cases h1 : analyze s = 0 <;>
    by_cases h2 : analyze a = 0 <;>
    simp [hsn, h1, h2, bne_iff_ne]

theorem orchestrator_per_job_witness :
    ∃ r : JobResult,
      process_job (fun _ => (0 : Int))
        [("script", Yaml.str "x"), ("after_script", Yaml.str "y")] = .ok r ∧
      r.script_rc = 0 ∧
      r.after_rc = (if strip_nonempty "y" then some 0 else none) ∧
      (r.result = true ↔
        ((0 : Int) = 0 ∧ (strip_nonempty "y" = false ∨ (0 : Int) = 0))) :=
  orchestrator_per_job (fun _ => 0)
    [("script", Yaml.str "x"), ("after_script", Yaml.str "y")] "x" "y" rfl

/-- C7: when `_main` completes without raising, its status is `1`
exactly when the document yielded zero jobs or some job's verdict is
fail, and `0` otherwise. -/
theorem overall_status_spec (analyze : String → Int)
    (kvs : List (String × Yaml)) (n : Int)
    (h : run_main analyze (Yaml.map kvs) = .ok n) :
    (n = 0 ∨ n = 1) ∧
    (n = 1 ↔ (yaml_to_jobs kvs = [] ∨
      ∃ results : List JobResult,
        run_jobs analyze (yaml_to_jobs kvs) = .ok results ∧
        ∃ r ∈ results, r.result = false)) := by
  simp only [run_main, load_yaml] at h
  by_cases hjobs : yaml_to_jobs kvs = []
  · rw [hjobs] at h
    simp only [List.length_nil, Nat.zero_lt_one, if_pos] at h
    obtain rfl : (1 : Int) = n := by simpa using h
    exact ⟨Or.inr rfl, by simp [hjobs]⟩
  · have hlen : ¬((yaml_to_jobs kvs).length < 1) := by
      simpa [Nat.lt_one_iff, List.length_eq_zero] using hjobs
    rw [if_neg hlen] at h
    cases hr : run_jobs analyze (yaml_to_jobs kvs) with
    | error e => rw [hr] at h; simp at h
    | ok results =>
      rw [hr] at h
      have h2 : Except.ok (if (results.any fun r => !r.result) = true
          then (1 : Int) else 0) = Except.ok n := h
      by_cases hany : (results.any fun r => !r.result) = true
      · rw [if_pos hany] at h2
        obtain rfl : (1 : Int) = n := Except.ok.inj h2
        refine ⟨Or.inr rfl, iff_of_true rfl (Or.inr ⟨results, rfl, ?_⟩)⟩
        obtain ⟨r, hmem, hres⟩ := List.any_eq_true.mp hany
        exact ⟨r, hmem, by simpa using hres⟩
      · rw [if_neg hany] at h2
        obtain rfl : (0 : Int) = n := Except.ok.inj h2
        refine ⟨Or.inl rfl, iff_of_false (by decide) ?_⟩
        rintro (hempty | ⟨results2, hr2, r, hmem, hres⟩)
        · exact hjobs hempty
        · obtain rfl : results = results2 := Except.ok.inj hr2
          refine hany (List.any_eq_true.mpr ⟨r, hmem, ?_⟩)
          simp [hres]

theorem overall_status_spec_witness :
    ((1 : Int) = 0 ∨ (1 : Int) = 1) ∧
    ((1 : Int) = 1 ↔ (yaml_to_jobs ([] : List (String × Yaml)) = [] ∨
      ∃ results : List JobResult,
        run_jobs (fun _ => (0 : Int)) (yaml_to_jobs []) = .ok results ∧
        ∃ r ∈ results, r.result = false)) :=
  overall_status_spec (fun _ => 0) [] 1 rfl

end GitlabCiShellcheck
